import Mathlib

/-!
Shallow embedding of the weekly post lifecycle and publish scheduler of
`bot.py` (multi-tenant Telegram CMS bot), together with theorems settling
the specification claims about it.

Conventions of the embedding:
* SQLite rows become Lean structures; NULL-able TEXT columns become
  `Option String` (Python truthiness `p.get(k)` is `truthy` below: false for
  NULL and for the empty string).
* UTC instants are minutes since an arbitrary epoch (`Int`); the column
  `publish_at` stores `datetime.isoformat()` strings that round-trip, so it is
  embedded as `Option Int` (a stored instant is a nonempty string, hence
  truthy iff present).
* The python-telegram-bot job queue is a list of pending `Job`s; `run_once`
  appends, `schedule_removal` removes, names need not be unique.
* Local wall-clock datetimes are wall minutes (`day * 1440 + minuteOfDay`); a
  timezone is a function from the wall datetime (day, minute-of-day) to its
  UTC offset in minutes, which is how `zoneinfo` derives the offset from the
  wall clock (fold 0).
-/

namespace Fabrika

/-- Fuel-driven helper for `decChars`; any `fuel > n` yields the digits of
`n` (structural recursion on the fuel keeps the definition kernel-reducible). -/
def decCharsAux : Nat → Nat → List Char
  | 0, _ => []
  | fuel + 1, n =>
    if n < 10 then [Char.ofNat (48 + n)]
    else decCharsAux fuel (n / 10) ++ [Char.ofNat (48 + n % 10)]

/-- Decimal digit characters of `n`, most significant first; the character
list of Python's `str(n)` / `f"{n}"` rendering. -/
def decChars (n : Nat) : List Char := decCharsAux (n + 1) n

theorem decCharsAux_congr (f1 : Nat) : ∀ (f2 n : Nat), n < f1 → n < f2 →
    decCharsAux f1 n = decCharsAux f2 n := by
  induction f1 with
  | zero => intro f2 n h1 _; omega
  | succ f1 ih =>
    intro f2 n h1 h2
    cases f2 with
    | zero => omega
    | succ f2 =>
      simp only [decCharsAux]
      by_cases hn : n < 10
      · rw [if_pos hn, if_pos hn]
      · rw [if_neg hn, if_neg hn,
          ih f2 (n / 10) (by omega) (by omega)]

/-- Unfolding rule: a single digit renders as itself. -/
theorem decChars_lt (n : Nat) (h : n < 10) :
    decChars n = [Char.ofNat (48 + n)] := by
  simp [decChars, decCharsAux, h]

/-- Unfolding rule: a multi-digit number renders as its leading digits
followed by its last digit. -/
theorem decChars_ge (n : Nat) (h : 10 ≤ n) :
    decChars n = decChars (n / 10) ++ [Char.ofNat (48 + n % 10)] := by
  have h1 : decChars n = decCharsAux n (n / 10) ++ [Char.ofNat (48 + n % 10)] := by
    simp only [decChars, decCharsAux]
    rw [if_neg (by omega)]
  rw [h1, decChars]
  rw [decCharsAux_congr n (n / 10 + 1) (n / 10) (by omega) (by omega)]

/-- Python `str(n)` for a natural number. -/
def natStr (n : Nat) : String := String.mk (decChars n)

/-- Character list of Python's `f"{n:02d}"` (zero-pad to width 2). -/
def pad2 (n : Nat) : List Char :=
  if n < 10 then '0' :: decChars n else decChars n

/-- Python truthiness of a NULL-able text column: `not p.get(k)` is true
exactly when the value is NULL (`none`) or the empty string. -/
def truthy : Option String → Bool
  | none => false
  | some s => !(s == "")

/-- Python string slicing `s[:n]` (by characters). -/
def strTake (s : String) (n : Nat) : String := String.mk (s.data.take n)

/-- Python `s.strip()` on the character list: drop leading and trailing
whitespace. -/
def pyStrip (l : List Char) : List Char :=
  ((l.dropWhile Char.isWhitespace).reverse.dropWhile Char.isWhitespace).reverse

/-- Number of whitespace-separated tokens, i.e. `len(s.split())` in Python;
`inTok` records whether the previous character was inside a token. -/
def countTokens : List Char → Bool → Nat
  | [], _ => 0
  | c :: rest, inTok =>
    if c.isWhitespace then countTokens rest false
    else (if inTok then 0 else 1) + countTokens rest true

/-- A row of the `posts` table, restricted to the columns the core logic
reads or writes (the bookkeeping columns `created_at`/`updated_at` and the
fixed `(tenant_id, project_id, week_label)` key of a week's post list are
kept outside the record). -/
structure Post where
  id : Nat
  postNo : Nat
  status : String
  title : Option String
  lead : Option String
  body : Option String
  ctaText : Option String
  ctaUrl : Option String
  tags : Option String
  coverUrl : Option String
  publishAt : Option Int
  messageId : Option Nat
  errorNote : Option String
deriving DecidableEq, Repr

/-- A pending job of the telegram job queue: its `name`, the instant it fires
at, and the `data` payload `{tenant_id, project_pk, post_id}`. -/
structure Job where
  name : String
  fireAt : Int
  tenant : Nat
  projectPk : Nat
  postId : Nat
deriving DecidableEq, Repr

/-- A row of the append-only `publish_log` table (the wall-clock `ts` column
is not modelled). -/
structure LogEntry where
  tenant : Nat
  projectPk : Nat
  postId : Nat
  platform : String
  result : String
  messageId : Option Nat
  errorNote : Option String
deriving DecidableEq, Repr

/-- `validate_post` (bot.py:355-365): readiness defects of one post, in
source order; the Russian defect strings are kept verbatim. -/
def validate_post (p : Post) : List String :=
  (if !truthy p.title || ((p.title.getD "").length > 60) then
    ["Заголовок пустой или длиннее 60"] else [])
  ++ (if !truthy p.lead || ((p.lead.getD "").length > 140) then
    ["Лид пустой или длиннее 140"] else [])
  ++ (if !truthy p.body then ["Нет основного текста"] else [])
  ++ (if truthy p.ctaText && !truthy p.ctaUrl then
    ["Есть CTA-текст, но нет ссылки"] else [])
  ++ (let tags := pyStrip (p.tags.getD "").data
      if !(tags == []) && countTokens tags false > 10 then
        ["Слишком много хэштегов (>10)"] else [])
  ++ (if !truthy p.coverUrl then ["Нет обложки"] else [])
  ++ (if p.publishAt.isNone then ["Не задано время публикации"] else [])

/-! ## Time normalizer -/

/-- Wall-clock minutes of the local datetime `(day, minuteOfDay)`. -/
def wallMinutes (d : Nat) (tod : Nat) : Int := (d * 1440 : Nat) + tod

/-- A timezone: UTC offset in minutes as a function of the wall-clock local
datetime, given as (calendar day, minute of day). -/
def Tz : Type := Nat → Int → Int

/-- `astimezone(UTC)` of an aware local datetime with wall-minute count `w`:
`zoneinfo` re-derives the offset from the wall datetime itself, so the UTC
instant is the wall count minus the offset at that day / time of day. -/
def toUtc (w : Int) (tz : Tz) : Int := w - tz (w / 1440).toNat (w % 1440)

/-- `make_default_schedule` (bot.py:317-324): base is 10:00 local on the
start day; aware `+ timedelta(days=i)` adds to the wall clock; each result is
converted to UTC independently. 10:00 is minute 600 of the day. -/
def make_default_schedule (start : Nat) (tz : Tz) : List Int :=
  let base := wallMinutes start 600
  (List.range 7).map (fun i => toUtc (base + i * 1440) tz)

/-! ## Week generator -/

/-- One freshly generated draft post (the row inserted by
`generate_week_drafts` for index `i`, bot.py:335-344). -/
def freshDraft (nextId i : Nat) (pubAt : Int) : Post :=
  { id := nextId + i
    postNo := i + 1
    status := "draft"
    title := some ("Цифровая безопасность #" ++ natStr (i + 1))
    lead := some "Короткий лид: чем полезен этот пост."
    body := some "1) Что это и зачем\n2) Простое объяснение\n3) Практическая польза за 3 минуты"
    ctaText := none
    ctaUrl := none
    tags := some "#security #privacy #digital"
    coverUrl := some ""
    publishAt := some pubAt
    messageId := none
    errorNote := none }

/-- `generate_week_drafts` (bot.py:326-345): `posts` is the list of rows with
the call's `(tenant_id, project_id, week_label)`; if the COUNT over them is 0,
seven drafts numbered 1..7 are inserted with instants from
`make_default_schedule`, else nothing happens. `nextId` models the
AUTOINCREMENT id counter. -/
def generate_week_drafts (tz : Tz) (startDate : Nat) (nextId : Nat)
    (posts : List Post) : List Post :=
  let sched := make_default_schedule startDate tz
  if posts.length == 0 then
    (List.range 7).map (fun i => freshDraft nextId i (sched.getD i 0))
  else posts

/-! ## Scheduler -/

/-- The deterministic publish-job name `f"{tenant}-{project}-pub-{post}"`. -/
def jobNamePub (t p i : Nat) : String :=
  natStr t ++ "-" ++ natStr p ++ "-pub-" ++ natStr i

/-- The retry-job name `f"{tenant}-{project}-retry-{post}"`. -/
def jobNameRetry (t p i : Nat) : String :=
  natStr t ++ "-" ++ natStr p ++ "-retry-" ++ natStr i

/-- `schedule_post_job` (bot.py:800-804): remove every pending job carrying
the deterministic name, then `run_once` a new job at `when_utc`. -/
def schedule_post_job (t p i : Nat) (whenUtc : Int) (q : List Job) : List Job :=
  let name := jobNamePub t p i
  (q.filter (fun j => !(j.name == name))) ++
    [{ name := name, fireAt := whenUtc, tenant := t, projectPk := p, postId := i }]

/-- `schedule_week_posts` (bot.py:785-798): schedule each post of the week
that is `approved` and has a publish instant. -/
def schedule_week_posts (t p : Nat) (posts : List Post) (q : List Job) : List Job :=
  posts.foldl
    (fun acc pp =>
      if pp.status == "approved" && pp.publishAt.isSome then
        schedule_post_job t p pp.id (pp.publishAt.getD 0) acc
      else acc) q

/-- `week_shift_day` (bot.py:736-752): for every post of the week with a
non-NULL `publish_at`, add one day (UTC instants, so exactly 24 h = 1440 min);
NULL instants are skipped; the job queue is not touched. -/
def week_shift_day (posts : List Post) (q : List Job) : List Post × List Job :=
  (posts.map (fun p =>
      match p.publishAt with
      | none => p
      | some t => { p with publishAt := some (t + 1440) }), q)

/-! ## Approval engine -/

/-- Outcome of `week_approve`: the week's posts and the job queue afterwards,
whether approval went through, and the defect report (post number with its
defect list, in post order) shown when it aborts on validation. -/
structure ApproveResult where
  posts : List Post
  queue : List Job
  approved : Bool
  problems : List (Nat × List String)
deriving Repr

/-- Body of the defect-collecting loop of `week_approve` (bot.py:768-770):
the report entry a post contributes, if any. -/
def postDefects (pp : Post) : Option (Nat × List String) :=
  let issues := validate_post pp
  if issues.isEmpty then none else some (pp.postNo, issues)

/-- `week_approve` (bot.py:754-783): abort if fewer than 7 posts; collect
defects per post; abort with the full report if any; else set every post of
the week to `approved` and schedule all of them. -/
def week_approve (t p : Nat) (posts : List Post) (q : List Job) : ApproveResult :=
  if posts.length < 7 then ⟨posts, q, false, []⟩
  else
    let problems := posts.filterMap postDefects
    if !problems.isEmpty then ⟨posts, q, false, problems⟩
    else
      let approvedPosts := posts.map (fun pp => { pp with status := "approved" })
      ⟨approvedPosts, schedule_week_posts t p approvedPosts q, true, []⟩

/-! ## Publisher -/

/-- Outcome of one attempt of the messaging transport: delivery reference on
success, exception text on failure. -/
inductive Transport where
  | ok (msgId : Nat)
  | fail (err : String)
deriving DecidableEq, Repr

/-- The mutable state the publisher touches: the posts, the project's bound
channel (NULL-able), the publish log and the pending job queue. -/
structure SysState where
  posts : List Post
  channel : Option String
  log : List LogEntry
  queue : List Job
deriving Repr

/-- `do_publish_post` (bot.py:940-976): load the post by id (no-op if
absent); silently no-op without a bound channel; on transport success set
status `published` + message ref and log `OK`; on any transport exception set
status `failed`, store the error text truncated to 500 characters, log
`FAILED`, and `run_once` a retry job named `{t}-{p}-retry-{id}` firing 3
minutes after the current instant `now`. -/
def do_publish_post (t p i : Nat) (now : Int) (tr : Transport) (st : SysState) :
    SysState :=
  match st.posts.find? (fun pp => pp.id == i) with
  | none => st
  | some _ =>
    if !truthy st.channel then st
    else
      match tr with
      | .ok m =>
        { st with
          posts := st.posts.map (fun pp =>
            if pp.id == i then { pp with status := "published", messageId := some m }
            else pp)
          log := st.log ++ [⟨t, p, i, "telegram", "OK", some m, none⟩] }
      | .fail e =>
        { st with
          posts := st.posts.map (fun pp =>
            if pp.id == i then
              { pp with status := "failed", errorNote := some (strTake e 500) }
            else pp)
          log := st.log ++ [⟨t, p, i, "telegram", "FAILED", none, some (strTake e 500)⟩]
          queue := st.queue ++
            [{ name := jobNameRetry t p i, fireAt := now + 3, tenant := t,
               projectPk := p, postId := i }] }

/-! ## Operational model of the job queue -/

/-- The operations that touch the queue and posts of one project: a schedule
call (`schedule_post_job`), a pending job firing (it leaves the queue, then
`publish_job` runs `do_publish_post` with its payload), and a manual
"publish now" (`publish_now`, bot.py:859-867, which calls `do_publish_post`
directly). The transport outcome is the environment's choice. -/
inductive Op where
  | schedule (t p i : Nat) (w : Int)
  | fire (n : Nat) (now : Int) (tr : Transport)
  | publishNow (t p i : Nat) (now : Int) (tr : Transport)

/-- One step of the system. -/
def step (st : SysState) : Op → SysState
  | .schedule t p i w => { st with queue := schedule_post_job t p i w st.queue }
  | .fire n now tr =>
    match st.queue[n]? with
    | none => st
    | some j =>
      do_publish_post j.tenant j.projectPk j.postId now tr
        { st with queue := st.queue.eraseIdx n }
  | .publishNow t p i now tr => do_publish_post t p i now tr st

/-- Run a sequence of operations. -/
def run (st : SysState) (ops : List Op) : SysState := ops.foldl step st

/-! ## ISO calendar and the week label

`week_label_from_date` (bot.py:297-299) calls `date.isocalendar()`; the
functions below embed CPython's `datetime` implementation of the proleptic
Gregorian ordinal and of `isocalendar` (its `_ymd2ord` / `_isoweek1monday`
helpers), specialised to the (iso year, iso week) pair the label uses. A date
is a `(year, month, day)` triple of naturals. -/

/-- Gregorian leap-year test (CPython `_is_leap`). -/
def isLeapYear (y : Nat) : Bool :=
  y % 4 == 0 && (y % 100 != 0 || y % 400 == 0)

/-- Days in month `m` of year `y` (CPython `_days_in_month`). -/
def daysInMonth (y m : Nat) : Nat :=
  if m == 2 then (if isLeapYear y then 29 else 28)
  else if m == 4 || m == 6 || m == 9 || m == 11 then 30
  else 31

/-- Days in the months strictly before month `m` of year `y` (CPython
`_days_before_month`). -/
def daysBeforeMonth (y m : Nat) : Nat :=
  let l := if isLeapYear y then 1 else 0
  match m with
  | 1 => 0
  | 2 => 31
  | 3 => 59 + l
  | 4 => 90 + l
  | 5 => 120 + l
  | 6 => 151 + l
  | 7 => 181 + l
  | 8 => 212 + l
  | 9 => 243 + l
  | 10 => 273 + l
  | 11 => 304 + l
  | _ => 334 + l

/-- Days before January 1 of year `y` (CPython `_days_before_year`). -/
def daysBeforeYear (y : Nat) : Nat :=
  let a := y - 1
  a * 365 + a / 4 - a / 100 + a / 400

/-- Proleptic Gregorian ordinal, day 1 = January 1 of year 1 (CPython
`_ymd2ord`). -/
def ymd2ord (y m d : Nat) : Nat :=
  daysBeforeYear y + daysBeforeMonth y m + d

/-- Ordinal of the Monday of ISO week 1 of year `y` (CPython
`_isoweek1monday`; THURSDAY = 3 with Monday = 0). -/
def isoweek1monday (y : Nat) : Int :=
  let firstday : Int := ymd2ord y 1 1
  let firstweekday := (firstday + 6) % 7
  let week1monday := firstday - firstweekday
  if firstweekday > 3 then week1monday + 7 else week1monday

/-- The (ISO year, ISO week) pair of `date(y, m, d).isocalendar()` (CPython
`date.isocalendar`; Python `divmod` is floor division, which `Int`'s `/` by
the positive constant 7 agrees with). -/
def isocalendarYW (y m d : Nat) : Nat × Nat :=
  let today : Int := ymd2ord y m d
  let week := (today - isoweek1monday y) / 7
  if week < 0 then
    (y - 1, ((today - isoweek1monday (y - 1)) / 7 + 1).toNat)
  else if 52 ≤ week ∧ isoweek1monday (y + 1) ≤ today then
    (y + 1, 1)
  else
    (y, (week + 1).toNat)

/-- `week_label_from_date` (bot.py:297-299): `f"W{wno:02d}-{isoy}"` from the
ISO calendar of the date, built as its character list. -/
def week_label_from_date (y m d : Nat) : String :=
  let yw := isocalendarYW y m d
  String.mk ('W' :: (pad2 yw.2 ++ '-' :: decChars yw.1))

/-- Decider for the regular expression `W\d\x7b2\x7d-\d\x7b4\x7d` on a whole
string. -/
def matchesWeekPattern (s : String) : Bool :=
  match s.data with
  | 'W' :: a :: b :: '-' :: c :: d :: e :: f :: [] =>
    a.isDigit && b.isDigit && c.isDigit && d.isDigit && e.isDigit && f.isDigit
  | _ => false

/-! ## Helper lemmas -/

theorem filter_name_of_filter_not (q : List Job) (k : String) :
    (q.filter (fun j => !(j.name == k))).filter (fun j => j.name == k) = [] := by
  induction q with
  | nil => rfl
  | cons j q ih =>
    by_cases h : j.name = k <;> simp [List.filter_cons, h, ih]

theorem shiftOne_eq (p : Post) :
    (match p.publishAt with
      | none => p
      | some t => { p with publishAt := some (t + 1440) }) =
    { p with publishAt := p.publishAt.map (· + 1440) } := by
  rcases p with ⟨_, _, _, _, _, _, _, _, _, _, pa, _, _⟩
  cases pa <;> rfl

theorem make_default_schedule_getD (start : Nat) (tz : Tz) (i : Nat) (hi : i < 7) :
    (make_default_schedule start tz).getD i 0 =
      wallMinutes (start + i) 600 - tz (start + i) 600 := by
  have h1 : (make_default_schedule start tz).getD i 0 =
      toUtc (wallMinutes start 600 + (i : Int) * 1440) tz := by
    interval_cases i <;> rfl
  have e0 : wallMinutes start 600 + (i : Int) * 1440 = wallMinutes (start + i) 600 := by
    simp only [wallMinutes]; push_cast; ring
  rw [h1, e0]
  have e1 : (wallMinutes (start + i) 600 / 1440).toNat = start + i := by
    simp only [wallMinutes]; push_cast; omega
  have e2 : wallMinutes (start + i) 600 % 1440 = 600 := by
    simp only [wallMinutes]; push_cast; omega
  simp only [toUtc, e1, e2]

/-! ## Claim theorems -/

/-- C4. Scheduling the same post twice deduplicates by job name: each
schedule call first cancels every pending job named
`{tenant}-{project}-pub-{post_id}` and registers one new one-shot job, so two
schedule calls with two different instants leave exactly one pending job with
that name, firing at the second instant, while jobs with any other name are
untouched. -/
theorem schedule_twice_dedups (q : List Job) (t p i : Nat) (w1 w2 : Int) :
    ((schedule_post_job t p i w2 (schedule_post_job t p i w1 q)).filter
        (fun j => j.name == jobNamePub t p i)) =
      [{ name := jobNamePub t p i, fireAt := w2, tenant := t, projectPk := p,
         postId := i }] ∧
    ((schedule_post_job t p i w2 (schedule_post_job t p i w1 q)).filter
        (fun j => !(j.name == jobNamePub t p i))) =
      q.filter (fun j => !(j.name == jobNamePub t p i)) := by
  constructor
  · simp [schedule_post_job, List.filter_append, filter_name_of_filter_not]
  · simp [schedule_post_job, List.filter_append, List.filter_filter]

/-- C6. `make_default_schedule` returns exactly seven UTC instants; the i-th
one is the UTC conversion of 10:00 local wall-clock time (minute 600) on
`local_start_date + i`, computed with that day's own UTC offset, so a DST
transition during the week changes later offsets but every instant stays at
10:00 local. -/
theorem default_schedule_local_1000 (start : Nat) (tz : Tz) :
    (make_default_schedule start tz).length = 7 ∧
    ∀ i, i < 7 →
      (make_default_schedule start tz).getD i 0 =
        wallMinutes (start + i) 600 - tz (start + i) 600 := by
  refine ⟨rfl, fun i hi => ?_⟩
  exact make_default_schedule_getD start tz i hi

/-- Witness for C6 at a DST-style timezone whose offset grows by an hour from
day 20003: the later instants still correspond to 10:00 local. -/
theorem default_schedule_local_1000_witness :
    (make_default_schedule 20000 (fun d _ => if 20003 ≤ d then 120 else 60)).getD 5 0 =
      wallMinutes 20005 600 -
        (fun (d : Nat) (_ : Int) => if 20003 ≤ d then (120 : Int) else 60) 20005 600 :=
  (default_schedule_local_1000 20000 (fun d _ => if 20003 ≤ d then 120 else 60)).2 5
    (by decide)

/-- C8. The +1-day week shift maps each post with a non-null publish instant
to the same post with the instant advanced by exactly 24 hours (1440
minutes); posts with a null instant and every other field are unchanged, and
the pending job queue is untouched. -/
theorem week_shift_day_frame (posts : List Post) (q : List Job) (i : Nat) :
    (week_shift_day posts q).2 = q ∧
    (week_shift_day posts q).1[i]? =
      posts[i]?.map (fun p => { p with publishAt := p.publishAt.map (· + 1440) }) := by
  refine ⟨rfl, ?_⟩
  simp only [week_shift_day, List.getElem?_map]
  cases posts[i]? with
  | none => rfl
  | some p => simp [shiftOne_eq p]

/-- A post whose CTA URL is set while the CTA text is empty and whose other
fields all satisfy the readiness rules. -/
def ctaUrlOnlyPost : Post :=
  { id := 1, postNo := 1, status := "draft", title := some "T", lead := some "L",
    body := some "B", ctaText := none, ctaUrl := some "https://example.com",
    tags := some "", coverUrl := some "c", publishAt := some 0,
    messageId := none, errorNote := none }

/-- C7 counterexample. The validator does not flag a CTA URL present without
a CTA text: on `ctaUrlOnlyPost` it returns the empty defect list, so the
claimed "both directions" check is false on the code. -/
theorem cta_url_without_text_not_flagged :
    truthy ctaUrlOnlyPost.ctaUrl = true ∧ truthy ctaUrlOnlyPost.ctaText = false ∧
    validate_post ctaUrlOnlyPost = [] := ⟨rfl, rfl, rfl⟩

theorem mem_ite_nil {α : Type} {a : α} {c : Prop} [Decidable c] {l : List α}
    (h : a ∈ (if c then l else [])) : a ∈ l := by
  by_cases hc : c
  · simpa [hc] using h
  · simp [hc] at h

/-- C7 amended. The validator flags CTA incompleteness in one direction only:
if a CTA text is present without a CTA URL, `validate_post` reports the CTA
defect; when no CTA text is present the CTA defect is never reported, even if
a CTA URL is present alone. -/
theorem cta_defect_one_direction (p : Post) :
    (truthy p.ctaText = true → truthy p.ctaUrl = false →
      "Есть CTA-текст, но нет ссылки" ∈ validate_post p) ∧
    (truthy p.ctaText = false →
      "Есть CTA-текст, но нет ссылки" ∉ validate_post p) := by
  constructor
  · intro h1 h2
    simp only [validate_post, h1, h2, Bool.not_false, Bool.and_true, List.mem_append]
    tauto
  · intro h1 hmem
    simp only [validate_post, h1, Bool.false_and, List.mem_append] at hmem
    rcases hmem with ((((((h | h) | h) | h) | h) | h) | h)
    · exact absurd (List.mem_singleton.mp (mem_ite_nil h)) (by decide)
    · exact absurd (List.mem_singleton.mp (mem_ite_nil h)) (by decide)
    · exact absurd (List.mem_singleton.mp (mem_ite_nil h)) (by decide)
    · simp at h
    · exact absurd (List.mem_singleton.mp (mem_ite_nil h)) (by decide)
    · exact absurd (List.mem_singleton.mp (mem_ite_nil h)) (by decide)
    · exact absurd (List.mem_singleton.mp (mem_ite_nil h)) (by decide)

/-- Witness for the amended C7: a post with CTA text and no URL gets the CTA
defect; `ctaUrlOnlyPost` (no CTA text) does not. -/
theorem cta_defect_one_direction_witness :
    "Есть CTA-текст, но нет ссылки" ∈
        validate_post { ctaUrlOnlyPost with ctaText := some "читать", ctaUrl := none } ∧
    "Есть CTA-текст, но нет ссылки" ∉ validate_post ctaUrlOnlyPost :=
  ⟨(cta_defect_one_direction _).1 rfl rfl, (cta_defect_one_direction _).2 rfl⟩

/-- C5. `generate_week_drafts` is idempotent: a second call with identical
arguments is a no-op; a call on a week that already has posts changes
nothing; and on an empty week it creates exactly the seven drafts numbered
1..7 with placeholder content, empty cover, status `draft` and publish
instants 10:00 local from the default schedule. -/
theorem generate_week_drafts_idempotent (tz : Tz) (startDate nextId : Nat)
    (posts : List Post) :
    generate_week_drafts tz startDate nextId
        (generate_week_drafts tz startDate nextId posts) =
      generate_week_drafts tz startDate nextId posts ∧
    (posts ≠ [] → generate_week_drafts tz startDate nextId posts = posts) ∧
    generate_week_drafts tz startDate nextId [] =
      (List.range 7).map (fun i =>
        freshDraft nextId i (wallMinutes (startDate + i) 600 - tz (startDate + i) 600)) ∧
    (generate_week_drafts tz startDate nextId []).length = 7 := by
  have hne : ∀ ps : List Post, ps ≠ [] →
      generate_week_drafts tz startDate nextId ps = ps := by
    intro ps hps
    simp only [generate_week_drafts]
    rw [if_neg]
    simp [hps, List.length_eq_zero]
  have hgen : generate_week_drafts tz startDate nextId [] =
      (List.range 7).map (fun i =>
        freshDraft nextId i (wallMinutes (startDate + i) 600 - tz (startDate + i) 600)) := by
    have h0 : generate_week_drafts tz startDate nextId [] =
        (List.range 7).map (fun i =>
          freshDraft nextId i ((make_default_schedule startDate tz).getD i 0)) := rfl
    rw [h0]
    refine List.map_congr_left (fun i hi => ?_)
    rw [make_default_schedule_getD startDate tz i (List.mem_range.mp hi)]
  refine ⟨?_, hne posts, hgen, by rw [hgen]; simp⟩
  rcases posts with _ | ⟨p, ps⟩
  · exact hne _ (by rw [hgen]; simp)
  · rw [hne (p :: ps) (by simp)]
    exact hne _ (by simp)

/-- Witness for C5: on a week that already has a post nothing changes, and a
fresh generation yields exactly seven posts. -/
theorem generate_week_drafts_idempotent_witness :
    generate_week_drafts (fun _ _ => 0) 0 1 [ctaUrlOnlyPost] = [ctaUrlOnlyPost] ∧
    (generate_week_drafts (fun _ _ => 0) 0 1 []).length = 7 :=
  ⟨(generate_week_drafts_idempotent (fun _ _ => 0) 0 1 [ctaUrlOnlyPost]).2.1 (by simp),
   (generate_week_drafts_idempotent (fun _ _ => 0) 0 1 []).2.2.2⟩

/-- A freshly generated draft has exactly the missing-cover defect. -/
theorem validate_freshDraft (nextId i : Nat) (x : Int) (hi : i < 7) :
    validate_post (freshDraft nextId i x) = ["Нет обложки"] := by
  interval_cases i <;> rfl

/-- C1. Approval is all-or-nothing: for a week with its full set of posts of
which at least one has a validation defect, `week_approve` aborts — the posts
are returned unchanged (so none becomes `approved`), the job queue is
untouched, the approval flag is false, and the report is non-empty and
contains every defective post's full defect list. -/
theorem week_approve_all_or_nothing (t p : Nat) (posts : List Post) (q : List Job)
    (h7 : 7 ≤ posts.length) (hdef : ∃ pp ∈ posts, validate_post pp ≠ []) :
    (week_approve t p posts q).posts = posts ∧
    (week_approve t p posts q).queue = q ∧
    (week_approve t p posts q).approved = false ∧
    (week_approve t p posts q).problems ≠ [] ∧
    ∀ pp ∈ posts, validate_post pp ≠ [] →
      (pp.postNo, validate_post pp) ∈ (week_approve t p posts q).problems := by
  have hmem : ∀ pp ∈ posts, validate_post pp ≠ [] →
      (pp.postNo, validate_post pp) ∈ posts.filterMap postDefects := by
    intro pp hin hne
    refine List.mem_filterMap.mpr ⟨pp, hin, ?_⟩
    simp only [postDefects, List.isEmpty_iff]
    rw [if_neg hne]
  obtain ⟨pp0, hin0, hne0⟩ := hdef
  have hnil : posts.filterMap postDefects ≠ [] :=
    List.ne_nil_of_mem (hmem pp0 hin0 hne0)
  have happ : week_approve t p posts q =
      ⟨posts, q, false, posts.filterMap postDefects⟩ := by
    simp only [week_approve]
    rw [if_neg (by omega)]
    rcases hPe : posts.filterMap postDefects with _ | ⟨x, xs⟩
    · exact absurd hPe hnil
    · rfl
  rw [happ]
  exact ⟨rfl, rfl, rfl, hnil, hmem⟩

/-- Witness for C1: a concrete week of seven freshly drafted posts (all
missing a cover) is rejected with posts and queue unchanged. -/
theorem week_approve_all_or_nothing_witness :
    (week_approve 1 1 ((List.range 7).map (fun i => freshDraft 1 i 0)) []).posts =
        (List.range 7).map (fun i => freshDraft 1 i 0) ∧
    (week_approve 1 1 ((List.range 7).map (fun i => freshDraft 1 i 0)) []).queue = [] ∧
    (week_approve 1 1 ((List.range 7).map (fun i => freshDraft 1 i 0)) []).approved
        = false :=
  have h := week_approve_all_or_nothing 1 1
    ((List.range 7).map (fun i => freshDraft 1 i 0)) [] (by simp)
    ⟨freshDraft 1 0 0, List.mem_map.mpr ⟨0, List.mem_range.mpr (by omega), rfl⟩,
      by rw [validate_freshDraft 1 0 0 (by omega)]; simp⟩
  ⟨h.1, h.2.1, h.2.2.1⟩

/-- A fresh draft's report entry is the missing cover alone. -/
theorem postDefects_freshDraft (nextId i : Nat) (x : Int) (hi : i < 7) :
    postDefects (freshDraft nextId i x) = some (i + 1, ["Нет обложки"]) := by
  simp only [postDefects, validate_freshDraft nextId i x hi]
  rfl

/-- C10. Every post of a freshly generated week has exactly one validation
defect, the missing cover; consequently approving such a week aborts with the
cover defect reported for each of the seven posts and neither the posts nor
the job queue change. -/
theorem fresh_week_only_cover_defect (tz : Tz) (startDate nextId t p : Nat)
    (q : List Job) :
    (∀ pp ∈ generate_week_drafts tz startDate nextId [],
      validate_post pp = ["Нет обложки"]) ∧
    week_approve t p (generate_week_drafts tz startDate nextId []) q =
      ⟨generate_week_drafts tz startDate nextId [], q, false,
        (List.range 7).map (fun i => (i + 1, ["Нет обложки"]))⟩ := by
  have hg : generate_week_drafts tz startDate nextId [] =
      (List.range 7).map (fun i =>
        freshDraft nextId i ((make_default_schedule startDate tz).getD i 0)) := rfl
  constructor
  · intro pp hpp
    rw [hg] at hpp
    obtain ⟨i, hi, rfl⟩ := List.mem_map.mp hpp
    exact validate_freshDraft _ _ _ (List.mem_range.mp hi)
  · have hfm : ∀ l : List Nat, (∀ i ∈ l, i < 7) →
        l.filterMap (fun i =>
          postDefects (freshDraft nextId i ((make_default_schedule startDate tz).getD i 0))) =
          l.map (fun i => (i + 1, ["Нет обложки"])) := by
      intro l hl
      induction l with
      | nil => rfl
      | cons a as ih =>
        rw [List.filterMap_cons,
          postDefects_freshDraft nextId a _ (hl a (by simp)), List.map_cons,
          ih (fun i hi => hl i (by simp [hi]))]
    have hprob : (generate_week_drafts tz startDate nextId []).filterMap postDefects =
        (List.range 7).map (fun i => (i + 1, ["Нет обложки"])) := by
      rw [hg]
      simp only [List.filterMap_map, Function.comp_def]
      exact hfm (List.range 7) (fun i hi => List.mem_range.mp hi)
    have hlen : ¬ (generate_week_drafts tz startDate nextId []).length < 7 := by
      rw [hg]; simp
    simp only [week_approve]
    rw [if_neg hlen, hprob]
    split
    · rfl
    · rename_i hcond
      exact absurd rfl hcond

/-- Witness for C10: the first fresh draft of a concrete generation run
carries exactly the missing-cover defect. -/
theorem fresh_week_only_cover_defect_witness :
    validate_post
        (freshDraft 5 0 ((make_default_schedule 100 (fun _ _ => 60)).getD 0 0)) =
      ["Нет обложки"] :=
  (fresh_week_only_cover_defect (fun _ _ => 60) 100 5 1 1 []).1 _
    (List.mem_map.mpr ⟨0, List.mem_range.mpr (by omega), rfl⟩)

/-- A one-post project state with a bound channel and an empty job queue. -/
def pubFailState : SysState :=
  { posts := [freshDraft 1 0 0], channel := some "@ch", log := [], queue := [] }

/-- C3 counterexample. Retries are not single-shot: after a first transport
failure exactly one retry job is pending; when that retry fires and fails
again (a second consecutive failure) the failure branch schedules a further
retry, so a retry job is pending again — contradicting "a second consecutive
failure does not auto-chain a further retry". -/
theorem retry_chains_on_second_failure :
    ((run pubFailState [.publishNow 1 1 1 0 (.fail "boom")]).queue.countP
        (fun j => j.name == jobNameRetry 1 1 1)) = 1 ∧
    ((run pubFailState
        [.publishNow 1 1 1 0 (.fail "boom"), .fire 0 3 (.fail "boom")]).queue.countP
        (fun j => j.name == jobNameRetry 1 1 1)) = 1 := ⟨rfl, rfl⟩

/-- C3 amended. On a transport failure during publish (post found, channel
bound): the post's status becomes `failed` with the error note truncated to
at most 500 characters, a `FAILED` publish-log entry is appended, and exactly
one retry job named `{tenant}-{project}-retry-{post_id}` is appended to the
queue firing 3 minutes later. The retry is not single-shot: this holds for
every failing attempt, including a failing retry, so consecutive failures
keep scheduling further retries. -/
theorem publish_failure_effects (t p i : Nat) (now : Int) (e : String)
    (st : SysState) (hfind : (st.posts.find? (fun pp => pp.id == i)).isSome = true)
    (hch : truthy st.channel = true) :
    (do_publish_post t p i now (.fail e) st).posts =
      st.posts.map (fun pp =>
        if pp.id == i then
          { pp with status := "failed", errorNote := some (strTake e 500) }
        else pp) ∧
    (strTake e 500).length ≤ 500 ∧
    (do_publish_post t p i now (.fail e) st).log =
      st.log ++ [⟨t, p, i, "telegram", "FAILED", none, some (strTake e 500)⟩] ∧
    (do_publish_post t p i now (.fail e) st).queue =
      st.queue ++ [⟨jobNameRetry t p i, now + 3, t, p, i⟩] := by
  obtain ⟨pp, hpp⟩ := Option.isSome_iff_exists.mp hfind
  have hstep : do_publish_post t p i now (.fail e) st =
      { st with
        posts := st.posts.map (fun pp =>
          if pp.id == i then
            { pp with status := "failed", errorNote := some (strTake e 500) }
          else pp)
        log := st.log ++ [⟨t, p, i, "telegram", "FAILED", none, some (strTake e 500)⟩]
        queue := st.queue ++ [⟨jobNameRetry t p i, now + 3, t, p, i⟩] } := by
    simp only [do_publish_post, hpp, hch, Bool.not_true]
    rfl
  rw [hstep]
  refine ⟨rfl, ?_, rfl, rfl⟩
  have h1 : (strTake e 500).length = (e.data.take 500).length := rfl
  rw [h1, List.length_take]
  omega

/-- Witness for the amended C3 on a concrete failing publish. -/
theorem publish_failure_effects_witness :
    (do_publish_post 1 1 1 0 (.fail "boom") pubFailState).queue =
      [⟨jobNameRetry 1 1 1, 0 + 3, 1, 1, 1⟩] :=
  (publish_failure_effects 1 1 1 0 "boom" pubFailState rfl rfl).2.2.2

/-- Every character of a decimal rendering is a digit. -/
theorem decChars_digits (n : Nat) : ∀ c ∈ decChars n, c.isDigit = true := by
  induction n using Nat.strong_induction_on with
  | _ n ih =>
    by_cases h : n < 10
    · rw [decChars_lt n h]
      intro c hc
      rw [List.mem_singleton] at hc
      subst hc
      clear ih
      interval_cases n <;> decide
    · rw [decChars_ge n (by omega)]
      intro c hc
      rcases List.mem_append.mp hc with h1 | h1
      · exact ih (n / 10) (Nat.div_lt_self (by omega) (by omega)) c h1
      · rw [List.mem_singleton] at h1
        subst h1
        have h2 : n % 10 < 10 := Nat.mod_lt _ (by omega)
        revert h2
        generalize n % 10 = k
        intro h2
        interval_cases k <;> decide

/-- The decimal rendering never contains the letter `b`. -/
theorem count_b_decChars (n : Nat) : (decChars n).count 'b' = 0 := by
  rw [List.count_eq_zero]
  intro hmem
  exact absurd (decChars_digits n 'b' hmem) (by decide)

theorem jobNamePub_data (t p i : Nat) :
    (jobNamePub t p i).data =
      decChars t ++ ['-'] ++ decChars p ++ ['-', 'p', 'u', 'b', '-'] ++ decChars i :=
  rfl

theorem jobNameRetry_data (t p i : Nat) :
    (jobNameRetry t p i).data =
      decChars t ++ ['-'] ++ decChars p ++ ['-', 'r', 'e', 't', 'r', 'y', '-'] ++
        decChars i :=
  rfl

/-- Retry-job names and publish-job names never collide, whatever the
numeric components: a publish name contains exactly one `b`, a retry name
none. -/
theorem retry_name_ne_pub_name (a b c t p i : Nat) :
    jobNameRetry a b c ≠ jobNamePub t p i := by
  intro h
  have hd : (jobNameRetry a b c).data = (jobNamePub t p i).data := by rw [h]
  have h1 : (jobNameRetry a b c).data.count 'b' = 0 := by
    rw [jobNameRetry_data]
    simp [List.count_append, count_b_decChars]
  have h2 : (jobNamePub t p i).data.count 'b' = 1 := by
    rw [jobNamePub_data]
    simp [List.count_append, count_b_decChars]
  rw [hd, h2] at h1
  exact absurd h1 (by decide)

/-- Equation: publish of an unknown post id is a no-op. -/
theorem do_publish_eq_of_not_found (a b c : Nat) (now : Int) (tr : Transport)
    (st : SysState) (hf : st.posts.find? (fun pp => pp.id == c) = none) :
    do_publish_post a b c now tr st = st := by
  simp only [do_publish_post, hf]

/-- Equation: publish without a bound channel is a silent no-op. -/
theorem do_publish_eq_of_no_channel (a b c : Nat) (now : Int) (tr : Transport)
    (st : SysState) (pp : Post)
    (hf : st.posts.find? (fun pp => pp.id == c) = some pp)
    (hch : truthy st.channel = false) :
    do_publish_post a b c now tr st = st := by
  simp only [do_publish_post, hf, hch]
  rfl

/-- Equation: the transport-success branch of `do_publish_post`. -/
theorem do_publish_ok_eq (a b c : Nat) (now : Int) (m : Nat) (st : SysState)
    (pp : Post) (hf : st.posts.find? (fun pp => pp.id == c) = some pp)
    (hch : truthy st.channel = true) :
    do_publish_post a b c now (.ok m) st =
      { st with
        posts := st.posts.map (fun pp =>
          if pp.id == c then { pp with status := "published", messageId := some m }
          else pp)
        log := st.log ++ [⟨a, b, c, "telegram", "OK", some m, none⟩] } := by
  simp only [do_publish_post, hf, hch, Bool.not_true]
  rfl

/-- Equation: the transport-failure branch of `do_publish_post`. -/
theorem do_publish_fail_eq (a b c : Nat) (now : Int) (e : String) (st : SysState)
    (pp : Post) (hf : st.posts.find? (fun pp => pp.id == c) = some pp)
    (hch : truthy st.channel = true) :
    do_publish_post a b c now (.fail e) st =
      { st with
        posts := st.posts.map (fun pp =>
          if pp.id == c then
            { pp with status := "failed", errorNote := some (strTake e 500) }
          else pp)
        log := st.log ++ [⟨a, b, c, "telegram", "FAILED", none, some (strTake e 500)⟩]
        queue := st.queue ++
          [{ name := jobNameRetry a b c, fireAt := now + 3, tenant := a,
             projectPk := b, postId := c }] } := by
  simp only [do_publish_post, hf, hch, Bool.not_true]
  rfl

/-- `do_publish_post` never increases the number of pending jobs carrying a
given publish-job name: it only ever appends a retry-named job. -/
theorem countP_do_publish_queue (t p i a b c : Nat) (now : Int) (tr : Transport)
    (st : SysState) :
    ((do_publish_post a b c now tr st).queue.countP
        (fun j => j.name == jobNamePub t p i)) ≤
      st.queue.countP (fun j => j.name == jobNamePub t p i) := by
  cases hf : st.posts.find? (fun pp => pp.id == c) with
  | none => rw [do_publish_eq_of_not_found a b c now tr st hf]
  | some pp =>
    cases hch : truthy st.channel with
    | false => rw [do_publish_eq_of_no_channel a b c now tr st pp hf hch]
    | true =>
      cases tr with
      | ok m => rw [do_publish_ok_eq a b c now m st pp hf hch]
      | fail e =>
        rw [do_publish_fail_eq a b c now e st pp hf hch]
        have hz : List.countP (fun j : Job => j.name == jobNamePub t p i)
            [{ name := jobNameRetry a b c, fireAt := now + 3, tenant := a,
               projectPk := b, postId := c }] = 0 := by
          simp [List.countP_cons, retry_name_ne_pub_name a b c t p i]
        have hap : ({ st with
            posts := st.posts.map (fun pp =>
              if pp.id == c then
                { pp with status := "failed", errorNote := some (strTake e 500) }
              else pp)
            log := st.log ++
              [⟨a, b, c, "telegram", "FAILED", none, some (strTake e 500)⟩]
            queue := st.queue ++
              [{ name := jobNameRetry a b c, fireAt := now + 3, tenant := a,
                 projectPk := b, postId := c }] } : SysState).queue.countP
            (fun j => j.name == jobNamePub t p i) =
            st.queue.countP (fun j => j.name == jobNamePub t p i) +
              List.countP (fun j : Job => j.name == jobNamePub t p i)
                [{ name := jobNameRetry a b c, fireAt := now + 3, tenant := a,
                   projectPk := b, postId := c }] := List.countP_append _ _ _
        omega

/-- One step of the system preserves "at most one pending job named
`{t}-{p}-pub-{i}`". -/
theorem step_preserves_pub_unique (t p i : Nat) (st : SysState) (op : Op)
    (h : st.queue.countP (fun j => j.name == jobNamePub t p i) ≤ 1) :
    (step st op).queue.countP (fun j => j.name == jobNamePub t p i) ≤ 1 := by
  cases op with
  | schedule t' p' i' w =>
    simp only [step, schedule_post_job, List.countP_append]
    have hf : (st.queue.filter (fun j => !(j.name == jobNamePub t' p' i'))).countP
        (fun j => j.name == jobNamePub t p i) ≤
        st.queue.countP (fun j => j.name == jobNamePub t p i) :=
      (List.filter_sublist _).countP_le _
    by_cases hk : jobNamePub t' p' i' = jobNamePub t p i
    · have h0 : (st.queue.filter (fun j => !(j.name == jobNamePub t' p' i'))).countP
          (fun j => j.name == jobNamePub t p i) = 0 := by
        rw [List.countP_eq_zero]
        intro j hj
        have hrm := (List.mem_filter.mp hj).2
        rw [← hk]
        simpa using hrm
      have h1 : List.countP (fun j : Job => j.name == jobNamePub t p i)
          [{ name := jobNamePub t' p' i', fireAt := w, tenant := t',
             projectPk := p', postId := i' }] = 1 := by
        simp [List.countP_cons, hk]
      omega
    · have h1 : List.countP (fun j : Job => j.name == jobNamePub t p i)
          [{ name := jobNamePub t' p' i', fireAt := w, tenant := t',
             projectPk := p', postId := i' }] = 0 := by
        simp [List.countP_cons, hk]
      omega
  | fire n now tr =>
    simp only [step]
    cases hq : st.queue[n]? with
    | none => exact h
    | some j =>
      refine Nat.le_trans (countP_do_publish_queue t p i j.tenant j.projectPk
        j.postId now tr _) ?_
      exact Nat.le_trans ((List.eraseIdx_sublist _ _).countP_le _) h
  | publishNow a b c now tr =>
    exact Nat.le_trans (countP_do_publish_queue t p i a b c now tr st) h

/-- C2 counterexample. Two jobs for the same (tenant, project, post) can be
pending at once: starting from an empty queue, a manual publish that fails
leaves one retry job pending; a second manual publish that also fails appends
another retry job while the first is still pending, so the queue holds two
jobs for post (1,1,1). -/
theorem two_pending_jobs_for_same_post :
    ((run pubFailState
        [.publishNow 1 1 1 0 (.fail "x"), .publishNow 1 1 1 0 (.fail "x")]).queue.countP
      (fun j => j.tenant == 1 && j.projectPk == 1 && j.postId == 1)) = 2 := rfl

/-- C2 amended. The dedup-by-name rule yields at most one pending job per
post only for the publish jobs named `{t}-{p}-pub-{i}`: starting from an
empty queue, after any sequence of schedule calls, scheduled publishes,
manual publish-now invocations and failure-triggered retries, at most one
pending job with a given publish-job name exists. Retry jobs are appended
without dedup, so a retry job can coexist with a publish job or another retry
job for the same post. -/
theorem at_most_one_pub_job (st : SysState) (ops : List Op) (hq : st.queue = [])
    (t p i : Nat) :
    ((run st ops).queue.countP (fun j => j.name == jobNamePub t p i)) ≤ 1 := by
  have main : ∀ (ops : List Op) (st : SysState),
      st.queue.countP (fun j => j.name == jobNamePub t p i) ≤ 1 →
      ((run st ops).queue.countP (fun j => j.name == jobNamePub t p i)) ≤ 1 := by
    intro ops
    induction ops with
    | nil => intro st h; exact h
    | cons op rest ih =>
      intro st h
      exact ih _ (step_preserves_pub_unique t p i st op h)
  exact main ops st (by simp [hq])

/-- Witness for the amended C2 on a concrete operation sequence. -/
theorem at_most_one_pub_job_witness :
    ((run pubFailState
        [.schedule 1 1 1 10, .schedule 1 1 1 20,
         .publishNow 1 1 1 0 (.fail "x")]).queue.countP
      (fun j => j.name == jobNamePub 1 1 1)) ≤ 1 :=
  at_most_one_pub_job pubFailState
    [.schedule 1 1 1 10, .schedule 1 1 1 20, .publishNow 1 1 1 0 (.fail "x")]
    rfl 1 1 1

/-! ## ISO calendar lemmas -/

theorem isLeapYear_iff (y : Nat) :
    isLeapYear y = true ↔ (y % 4 = 0 ∧ (y % 100 ≠ 0 ∨ y % 400 = 0)) := by
  simp [isLeapYear]

/-- A calendar year adds 365 or 366 days to the ordinal count. -/
theorem daysBeforeYear_succ_bounds (y : Nat) (h : 1 ≤ y) :
    daysBeforeYear y + 365 ≤ daysBeforeYear (y + 1) ∧
    daysBeforeYear (y + 1) ≤ daysBeforeYear y + 366 := by
  simp only [daysBeforeYear]
  omega

/-- A valid date's ordinal lies between January 1 of its year and
December 31, i.e. strictly before January 1 of the next year. -/
theorem ymd2ord_bounds (y m d : Nat) (hy : 1 ≤ y) (hm1 : 1 ≤ m) (hm2 : m ≤ 12)
    (hd1 : 1 ≤ d) (hd2 : d ≤ daysInMonth y m) :
    daysBeforeYear y + 1 ≤ ymd2ord y m d ∧ ymd2ord y m d ≤ daysBeforeYear (y + 1) := by
  cases hLb : isLeapYear y with
  | false =>
    have hL : ¬(y % 4 = 0 ∧ (y % 100 ≠ 0 ∨ y % 400 = 0)) :=
      mt (isLeapYear_iff y).mpr (by simp [hLb])
    interval_cases m <;>
      simp [ymd2ord, daysBeforeMonth, daysInMonth, daysBeforeYear, hLb] at hd2 ⊢ <;>
      omega
  | true =>
    have hL : y % 4 = 0 ∧ (y % 100 ≠ 0 ∨ y % 400 = 0) := (isLeapYear_iff y).mp hLb
    interval_cases m <;>
      simp [ymd2ord, daysBeforeMonth, daysInMonth, daysBeforeYear, hLb] at hd2 ⊢ <;>
      omega

/-- The Monday of ISO week 1 lies within 3 days of January 1, and Monday
ordinals are ≡ 1 (mod 7). -/
theorem isoweek1monday_range (y : Nat) :
    (ymd2ord y 1 1 : Int) - 3 ≤ isoweek1monday y ∧
    isoweek1monday y ≤ (ymd2ord y 1 1 : Int) + 3 ∧
    isoweek1monday y % 7 = 1 := by
  simp only [isoweek1monday]
  refine ⟨?_, ?_, ?_⟩ <;> split <;> omega

/-- The ISO week number always lies in 1..53 and the ISO year within one of
the calendar year. -/
theorem isocalendar_bounds (y m d : Nat) (hy : 2 ≤ y) (hm1 : 1 ≤ m)
    (hm2 : m ≤ 12) (hd1 : 1 ≤ d) (hd2 : d ≤ daysInMonth y m) :
    1 ≤ (isocalendarYW y m d).2 ∧ (isocalendarYW y m d).2 ≤ 53 ∧
    y - 1 ≤ (isocalendarYW y m d).1 ∧ (isocalendarYW y m d).1 ≤ y + 1 := by
  have hb := ymd2ord_bounds y m d (by omega) hm1 hm2 hd1 hd2
  have hry := isoweek1monday_range y
  have hrp := isoweek1monday_range (y - 1)
  have hrn := isoweek1monday_range (y + 1)
  have e1 : ymd2ord y 1 1 = daysBeforeYear y + 1 := rfl
  have e2 : ymd2ord (y - 1) 1 1 = daysBeforeYear (y - 1) + 1 := rfl
  have e3 : ymd2ord (y + 1) 1 1 = daysBeforeYear (y + 1) + 1 := rfl
  have hs1 := daysBeforeYear_succ_bounds (y - 1) (by omega)
  have hs2 := daysBeforeYear_succ_bounds y (by omega)
  have hy1 : y - 1 + 1 = y := by omega
  rw [hy1] at hs1
  rw [e1] at hry
  rw [e2] at hrp
  rw [e3] at hrn
  simp only [isocalendarYW]
  split
  · rename_i hneg
    refine ⟨?_, ?_, ?_, ?_⟩ <;> dsimp only <;> omega
  · rename_i hpos
    split
    · rename_i hnext
      refine ⟨?_, ?_, ?_, ?_⟩ <;> dsimp only <;> omega
    · rename_i hnext
      refine ⟨?_, ?_, ?_, ?_⟩ <;> dsimp only <;> omega

/-! ## Digit-shape lemmas for the label -/

theorem decChars4 (n : Nat) (h1 : 1000 ≤ n) (h2 : n ≤ 9999) :
    decChars n =
      [Char.ofNat (48 + n / 10 / 10 / 10), Char.ofNat (48 + n / 10 / 10 % 10),
       Char.ofNat (48 + n / 10 % 10), Char.ofNat (48 + n % 10)] := by
  rw [decChars_ge n (by omega), decChars_ge (n / 10) (by omega),
    decChars_ge (n / 10 / 10) (by omega), decChars_lt (n / 10 / 10 / 10) (by omega)]
  rfl

theorem natStr4_digits (n : Nat) (h1 : 1000 ≤ n) (h2 : n ≤ 9999) :
    ∃ c1 c2 c3 c4, decChars n = [c1, c2, c3, c4] ∧ c1.isDigit = true ∧
      c2.isDigit = true ∧ c3.isDigit = true ∧ c4.isDigit = true := by
  refine ⟨_, _, _, _, decChars4 n h1 h2, ?_, ?_, ?_, ?_⟩ <;>
    exact decChars_digits n _ (by rw [decChars4 n h1 h2]; simp)

theorem pad2_two_digits (n : Nat) (h1 : 1 ≤ n) (h2 : n ≤ 99) :
    ∃ a b, pad2 n = [a, b] ∧ a.isDigit = true ∧ b.isDigit = true := by
  by_cases h : n < 10
  · refine ⟨'0', Char.ofNat (48 + n), ?_, by decide, ?_⟩
    · simp only [pad2, if_pos h, decChars_lt n h]
    · exact decChars_digits n _ (by rw [decChars_lt n h]; simp)
  · refine ⟨Char.ofNat (48 + n / 10), Char.ofNat (48 + n % 10), ?_, ?_, ?_⟩
    · simp only [pad2, if_neg h]
      rw [decChars_ge n (by omega), decChars_lt (n / 10) (by omega)]
      rfl
    · exact decChars_digits n _
        (by rw [decChars_ge n (by omega), decChars_lt (n / 10) (by omega)]; simp)
    · exact decChars_digits n _ (by rw [decChars_ge n (by omega)]; simp)

theorem matchesWeekPattern_mk (wno isoy : Nat) (hw1 : 1 ≤ wno) (hw2 : wno ≤ 53)
    (hy1 : 1000 ≤ isoy) (hy2 : isoy ≤ 9999) :
    matchesWeekPattern (String.mk ('W' :: (pad2 wno ++ '-' :: decChars isoy))) =
      true := by
  obtain ⟨a, b, hab, ha, hb⟩ := pad2_two_digits wno hw1 (by omega)
  obtain ⟨c1, c2, c3, c4, hc, h1, h2, h3, h4⟩ := natStr4_digits isoy hy1 hy2
  rw [hab, hc]
  simp [matchesWeekPattern, ha, hb, h1, h2, h3, h4]

/-- C9. `week_label_from_date` is deterministic and well-formed: on any valid
Gregorian date with a four-digit-safe year, recomputing the label yields the
same string, the label is `W` + the zero-padded two-digit ISO week + `-` +
the ISO week-numbering year (which may be the adjacent year near a year
boundary), and the label always matches `W\d\x7b2\x7d-\d\x7b4\x7d`. -/
theorem week_label_wellformed (y m d : Nat) (hy1 : 1001 ≤ y) (hy2 : y ≤ 9998)
    (hm1 : 1 ≤ m) (hm2 : m ≤ 12) (hd1 : 1 ≤ d) (hd2 : d ≤ daysInMonth y m) :
    week_label_from_date y m d = week_label_from_date y m d ∧
    (week_label_from_date y m d).data =
      'W' :: (pad2 (isocalendarYW y m d).2 ++ '-' :: decChars (isocalendarYW y m d).1) ∧
    matchesWeekPattern (week_label_from_date y m d) = true := by
  have hb := isocalendar_bounds y m d (by omega) hm1 hm2 hd1 hd2
  refine ⟨rfl, rfl, ?_⟩
  exact matchesWeekPattern_mk (isocalendarYW y m d).2 (isocalendarYW y m d).1
    hb.1 hb.2.1 (by omega) (by omega)

/-- Witness for C9 at the spec's end-to-end date 2025-09-08 (a Monday):
label `W37-2025`. -/
theorem week_label_wellformed_witness :
    matchesWeekPattern (week_label_from_date 2025 9 8) = true :=
  (week_label_wellformed 2025 9 8 (by omega) (by omega) (by omega) (by omega)
    (by omega) (by decide)).2.2

end Fabrika
